import Mathlib

/-!
# Verification of the GCSE Russian tutor conversation pipeline

A shallow embedding of the repository's source code:

* `src/src/App.tsx` — the conversation orchestrator (message log, level,
  single-flight send, auto-send debounce after speech recognition stops);
* `src/src/hooks/useSpeech.ts` — speech synthesis wrapper (Russian voice
  selection heuristic, speak/stop with cancellation);
* `src/unnamed/part_000` and `src/unnamed/part_001` — the Cloudflare Pages
  server function (level-keyed prompt selection, markdown code-fence
  stripping, JSON parse with degraded-response fallback).

Pure functions of the source become Lean functions; the React state updates
become explicit state-transition functions; the auto-send `useEffect` with
its timer becomes a small event-step machine.  The JavaScript `JSON.parse`
builtin is modelled by an executable parser `jsonParse` (and the theorems
about the server's parse step are stated for an arbitrary parse function,
so they hold for the real builtin as well).
-/

namespace GcseRussianTutor

/-! ## Basic string helpers (JavaScript semantics used by the source) -/

/-- Test `startsWithL s pat` : the char list `pat` is an initial segment of `s`. -/
def startsWithL : List Char → List Char → Bool
  | _, [] => true
  | [], _ :: _ => false
  | c :: cs, p :: ps => c == p && startsWithL cs ps

/-- Test `containsSub pat s` : the char list `pat` occurs contiguously in `s`
(JavaScript `String.prototype.includes`). -/
def containsSub (pat : List Char) : List Char → Bool
  | [] => startsWithL [] pat
  | c :: cs => startsWithL (c :: cs) pat || containsSub pat cs

/-- Whitespace for the purposes of `trim` (the whitespace characters that
actually occur in this pipeline's strings). -/
def isWsChar (c : Char) : Bool :=
  [' ', '\t', '\n', '\r'].contains c

/-- JavaScript `String.prototype.trim`: strip whitespace from both ends. -/
def trimL (l : List Char) : List Char :=
  ((l.dropWhile isWsChar).reverse.dropWhile isWsChar).reverse

/-- JavaScript `trim` on strings. -/
def strTrim (s : String) : String :=
  String.mk (trimL s.data)

/-- ASCII lower-casing of one character, as `toLowerCase` acts on the
voice names and keyword rules involved (all ASCII). -/
def lowerChar (c : Char) : Char :=
  if c.toNat ≥ 65 && c.toNat ≤ 90 then Char.ofNat (c.toNat + 32) else c

/-- JavaScript `toLowerCase` on strings. -/
def toLowerL (l : List Char) : List Char :=
  l.map lowerChar

/-! ## Voice model and selection (src/src/hooks/useSpeech.ts, loadVoices) -/

/-- A speech-synthesis voice descriptor (`SpeechSynthesisVoice`): the two
fields the source reads are `name` and `lang`. -/
structure Voice where
  name : String
  lang : String
deriving DecidableEq, Repr

/-- The test `voice.name.toLowerCase().includes(key)` from the selection heuristic. -/
def includesKey (v : Voice) (key : String) : Bool :=
  containsSub key.data (toLowerL v.name.data)

/-- The filter `allVoices.filter(voice => voice.lang.startsWith('ru'))`. -/
def filterRussianVoices (allVoices : List Voice) : List Voice :=
  allVoices.filter (fun v => startsWithL v.lang.data "ru".data)

/-- One rule `russianVoices.find(v => v.name.toLowerCase().includes(key))`. -/
def findByKey (rv : List Voice) (key : String) : Option Voice :=
  rv.find? (fun v => includesKey v key)

/-- The `preferredVoice` chain from `loadVoices`:
`find google || find microsoft || find yandex || find irina || find pavel ||
 find milena || find yuri || russianVoices[0]`. -/
def selectChain (rv : List Voice) : Option Voice :=
  (findByKey rv "google").orElse fun _ =>
  (findByKey rv "microsoft").orElse fun _ =>
  (findByKey rv "yandex").orElse fun _ =>
  (findByKey rv "irina").orElse fun _ =>
  (findByKey rv "pavel").orElse fun _ =>
  (findByKey rv "milena").orElse fun _ =>
  (findByKey rv "yuri").orElse fun _ =>
  rv.head?

/-- The `loadVoices` selection step: when the filtered Russian voice list is
non-empty the chain above is evaluated; when it is empty no voice is
selected (the source only warns). -/
def selectPreferredVoice (rv : List Voice) : Option Voice :=
  if rv.length > 0 then selectChain rv else none

/-- Whether some voice matches a keyword rule: `rv.any (matches key)`. -/
def anyKey (rv : List Voice) (key : String) : Bool :=
  rv.any (fun v => includesKey v key)

/-- Index (0‥7) of the first rule of the priority chain that can match the
candidate list: 0 = google, …, 6 = yuri, 7 = fallback-to-first. -/
def winningTier (rv : List Voice) : Nat :=
  if anyKey rv "google" then 0
  else if anyKey rv "microsoft" then 1
  else if anyKey rv "yandex" then 2
  else if anyKey rv "irina" then 3
  else if anyKey rv "pavel" then 4
  else if anyKey rv "milena" then 5
  else if anyKey rv "yuri" then 6
  else 7

/-- The voice produced by rule number `t` of the priority chain. -/
def tierChoice (rv : List Voice) : Nat → Option Voice
  | 0 => findByKey rv "google"
  | 1 => findByKey rv "microsoft"
  | 2 => findByKey rv "yandex"
  | 3 => findByKey rv "irina"
  | 4 => findByKey rv "pavel"
  | 5 => findByKey rv "milena"
  | 6 => findByKey rv "yuri"
  | _ => rv.head?

/-! ## Levels and the speech-rate table (src/src/App.tsx) -/

/-- The `Level` union type of App.tsx. -/
inductive Level where
  | beginner
  | foundation
  | higher
deriving DecidableEq, Repr

/-- The table `speechRates: Record<Level, number>` from App.tsx (exact decimal
values, modelled in ℚ; the source never computes with them). -/
def speechRates : Level → ℚ
  | .beginner => 0.75
  | .foundation => 0.90
  | .higher => 1.10

/-! ## Speech synthesis (src/src/hooks/useSpeech.ts, speak / stop) -/

/-- A `SpeechSynthesisUtterance` as configured by `speak`. -/
structure Utterance where
  text : String
  voice : Voice
  lang : String
  rate : ℚ
  pitch : ℚ
deriving DecidableEq, Repr

/-- Construction of the utterance inside `speak`. -/
def mkUtterance (text : String) (voice : Voice) (lang : String)
    (rate pitch : ℚ) : Utterance :=
  { text := text, voice := voice, lang := lang, rate := rate, pitch := pitch }

/-- The utterance created by a `speak` call wired as in App.tsx:
`useSpeech({ rate: speechRates[level], pitch: 1.0, lang: 'ru-RU' })`. -/
def speakAtLevel (level : Level) (voice : Voice) (text : String) : Utterance :=
  mkUtterance text voice "ru-RU" (speechRates level) 1.0

/-- The process-wide synthesis engine state: the utterance queue of
`window.speechSynthesis` (the platform queues utterances, so the type
permits more than one) and the hook's `speaking` flag. -/
structure SynthState where
  queue : List Utterance
  speaking : Bool
deriving DecidableEq, Repr

/-- Model of `window.speechSynthesis.cancel()` — removes all queued utterances. -/
def synthCancel (st : SynthState) : SynthState :=
  { st with queue := [] }

/-- Model of `window.speechSynthesis.speak(u)` — appends `u` to the queue. -/
def synthEnqueue (st : SynthState) (u : Utterance) : SynthState :=
  { st with queue := st.queue ++ [u] }

/-- The `speak` callback of useSpeech.ts.  Returns the new engine state and
an optional reported warning: with no selected voice it only warns and
returns; otherwise it cancels any ongoing speech, then creates and submits
the new utterance. -/
def speak (selectedVoice : Option Voice) (lang : String) (rate pitch : ℚ)
    (text : String) (st : SynthState) : SynthState × Option String :=
  match selectedVoice with
  | none => (st, some "No Russian voice selected. Cannot speak.")
  | some voice =>
      let st1 := synthCancel st
      let utterance := mkUtterance text voice lang rate pitch
      (synthEnqueue st1 utterance, none)

/-- The `stop` callback of useSpeech.ts: cancel plus `setSpeaking(false)`. -/
def stop (st : SynthState) : SynthState :=
  { synthCancel st with speaking := false }

/-! ## Conversation state and send (src/src/App.tsx, sendMessage) -/

/-- Message roles. -/
inductive Role where
  | user
  | assistant
deriving DecidableEq, Repr

/-- The `Message` interface of App.tsx. -/
structure AppMessage where
  role : Role
  content : String
  feedback : Option String := none
  transliteration : Option String := none
  topic : Option String := none
deriving DecidableEq, Repr

/-- The slice of App component state that `sendMessage` reads and writes. -/
structure AppState where
  messages : List AppMessage
  input : String
  level : Level
  loading : Bool
  error : Option String
deriving DecidableEq, Repr

/-- The JSON body `sendMessage` POSTs to `/api/chat`. -/
structure ChatRequest where
  reqMessages : List (Role × String)
  userLevel : Level
deriving DecidableEq, Repr

/-- The synchronous part of `sendMessage` up to the `fetch` call
(App.tsx lines 150–178).  The only guard in the source is
`if (!input.trim()) return;` — there is no in-flight check.  On acceptance
it appends the user message, clears the input (and transcript), sets
`loading`, clears `error`, and issues the backend request built from the
pre-append message snapshot plus the new message. -/
def sendMessageStart (s : AppState) : AppState × Option ChatRequest :=
  if strTrim s.input = "" then (s, none)
  else
    let userMessage : AppMessage := { role := .user, content := strTrim s.input }
    ({ s with
        messages := s.messages ++ [userMessage]
        input := ""
        loading := true
        error := none },
     some { reqMessages :=
              s.messages.map (fun m => (m.role, m.content)) ++
                [(Role.user, strTrim s.input)]
            userLevel := s.level })

/-! ## The JSON value model and a model of the JSON.parse builtin

The server function calls the JavaScript builtin `JSON.parse`, which is not
repository code; it is modelled here by the executable parser `jsonParse`
(subset: integer numerals, the common string escapes, no `\uXXXX`, no
fractional or exponent numbers).  The theorems about the server's parse
step are stated for an arbitrary parse function, with `jsonParse` used to
evaluate concrete instances. -/

/-- JSON values. -/
inductive Json where
  | jnull
  | jbool (b : Bool)
  | jnum (n : Int)
  | jstr (s : String)
  | jarr (items : List Json)
  | jobj (fields : List (String × Json))
deriving Repr

/-- Skip JSON whitespace (the same four characters as `isWsChar`). -/
def skipWs (l : List Char) : List Char :=
  l.dropWhile isWsChar

/-- Decode one escape character of a JSON string literal. -/
def escChar (e : Char) : Option Char :=
  if e == 'n' then some '\n'
  else if e == 't' then some '\t'
  else if e == 'r' then some '\r'
  else if e == '"' || e == '\\' || e == '/' then some e
  else if e == 'b' then some (Char.ofNat 8)
  else if e == 'f' then some (Char.ofNat 12)
  else none

/-- Parse the characters of a JSON string literal after the opening quote,
returning the decoded characters and the input after the closing quote. -/
def parseStringChars : List Char → Option (List Char × List Char)
  | [] => none
  | c :: cs =>
      if c == '"' then some ([], cs)
      else if c == '\\' then
        match cs with
        | [] => none
        | e :: cs2 =>
            match escChar e with
            | some ec =>
                match parseStringChars cs2 with
                | some (sc, rest) => some (ec :: sc, rest)
                | none => none
            | none => none
      else
        match parseStringChars cs with
        | some (sc, rest) => some (c :: sc, rest)
        | none => none

/-- Split a leading run of decimal digits. -/
def takeDigits (l : List Char) : List Char × List Char :=
  l.span Char.isDigit

/-- Numeric value of a digit run. -/
def digitsVal (ds : List Char) : Nat :=
  ds.foldl (fun a c => 10 * a + (c.toNat - 48)) 0

/-- The mutually recursive entry points of the JSON parser, closed over one
fuel level: a value, the inside of an array after `[`, the continuation of
an array after a value, the inside of an object after the opening brace,
and the continuation of an object after a member. -/
structure Parsers where
  value : List Char → Option (Json × List Char)
  arrItems : List Char → Option (List Json × List Char)
  arrMore : List Char → Option (List Json × List Char)
  objMembers : List Char → Option (List (String × Json) × List Char)
  objMore : List Char → Option (List (String × Json) × List Char)

/-- Out-of-fuel parsers: fail on every input. -/
def parsersZero : Parsers :=
  { value := fun _ => none
    arrItems := fun _ => none
    arrMore := fun _ => none
    objMembers := fun _ => none
    objMore := fun _ => none }

/-- One fuel level of the JSON parser, recursing into `P`. -/
def parsersStep (P : Parsers) : Parsers :=
  let value : List Char → Option (Json × List Char) := fun l =>
    match skipWs l with
    | [] => none
    | c :: cs =>
        if (c :: cs).take 4 = "null".data then some (.jnull, (c :: cs).drop 4)
        else if (c :: cs).take 4 = "true".data then
          some (.jbool true, (c :: cs).drop 4)
        else if (c :: cs).take 5 = "false".data then
          some (.jbool false, (c :: cs).drop 5)
        else if c == '"' then
          match parseStringChars cs with
          | some (sc, rest) => some (.jstr (String.mk sc), rest)
          | none => none
        else if c == '[' then
          match P.arrItems cs with
          | some (items, rest) => some (.jarr items, rest)
          | none => none
        else if c == Char.ofNat 123 then
          match P.objMembers cs with
          | some (fields, rest) => some (.jobj fields, rest)
          | none => none
        else if c == '-' then
          match takeDigits cs with
          | ([], _) => none
          | (ds, rest) => some (.jnum (-(digitsVal ds : Int)), rest)
        else if c.isDigit then
          match takeDigits (c :: cs) with
          | (ds, rest) => some (.jnum (digitsVal ds : Int), rest)
        else none
  let objMember : List Char → Option ((String × Json) × List Char) := fun l =>
    match skipWs l with
    | [] => none
    | c :: cs =>
        if c == '"' then
          match parseStringChars cs with
          | some (kc, r1) =>
              match skipWs r1 with
              | ':' :: r2 =>
                  match value r2 with
                  | some (v, r3) => some ((String.mk kc, v), r3)
                  | none => none
              | _ => none
          | none => none
        else none
  { value := value
    arrItems := fun l =>
      match skipWs l with
      | ']' :: rest => some ([], rest)
      | l1 =>
          match value l1 with
          | some (v, r1) =>
              match P.arrMore r1 with
              | some (vs, r2) => some (v :: vs, r2)
              | none => none
          | none => none
    arrMore := fun l =>
      match skipWs l with
      | ']' :: rest => some ([], rest)
      | ',' :: r1 =>
          match value r1 with
          | some (v, r2) =>
              match P.arrMore r2 with
              | some (vs, r3) => some (v :: vs, r3)
              | none => none
          | none => none
      | _ => none
    objMembers := fun l =>
      match skipWs l with
      | [] => none
      | c :: cs =>
          if c == Char.ofNat 125 then some ([], cs)
          else
            match objMember (c :: cs) with
            | some (m, r1) =>
                match P.objMore r1 with
                | some (ms, r2) => some (m :: ms, r2)
                | none => none
            | none => none
    objMore := fun l =>
      match skipWs l with
      | [] => none
      | c :: cs =>
          if c == Char.ofNat 125 then some ([], cs)
          else if c == ',' then
            match objMember cs with
            | some (m, r1) =>
                match P.objMore r1 with
                | some (ms, r2) => some (m :: ms, r2)
                | none => none
            | none => none
          else none }

/-- Fuelled JSON parsers. -/
def parseP : Nat → Parsers
  | 0 => parsersZero
  | fuel + 1 => parsersStep (parseP fuel)

/-- Model of the JavaScript `JSON.parse` builtin: parse one value and
require only trailing whitespace after it. -/
def jsonParse (s : String) : Option Json :=
  match (parseP (2 * s.length + 2)).value s.data with
  | some (v, rest) => if skipWs rest = [] then some v else none
  | none => none

/-! ## The server's code-fence stripping and parse/repair step
(src/unnamed/part_000 lines 203–217, src/unnamed/part_001 lines 289–303;
the two files contain the identical parse step) -/

/-- The backtick character (written by code point to keep it out of the
source text outside strings). -/
def backtickChar : Char := Char.ofNat 96

/-- First regex alternative with the optional newline: a fence opener
followed by a newline. -/
def fencePat1 : List Char :=
  backtickChar :: backtickChar :: backtickChar :: 'j' :: 's' :: 'o' :: 'n' :: '\n' :: []

/-- First regex alternative without the newline. -/
def fencePat2 : List Char :=
  backtickChar :: backtickChar :: backtickChar :: 'j' :: 's' :: 'o' :: 'n' :: []

/-- Second regex alternative with the optional newline: a newline followed
by a bare fence. -/
def fencePat3 : List Char :=
  '\n' :: backtickChar :: backtickChar :: backtickChar :: []

/-- Second regex alternative without the newline. -/
def fencePat4 : List Char :=
  backtickChar :: backtickChar :: backtickChar :: []

/-- One attempted match of the regex alternation at the head of the input,
returning the input after the match.  The regex's preference order is kept:
the first alternative before the second, and the optional `\n` greedy.  A
match starts either with a backtick (`` ```json\n ``, `` ```json ``, or the
second alternative's bare `` ``` ``) or with a newline (the second
alternative's `` \n``` ``); the head test only factors the alternation by
that first character. -/
def matchFence : List Char → Option (List Char)
  | [] => none
  | c :: cs =>
      if c = backtickChar then
        if (c :: cs).take 8 = fencePat1 then some ((c :: cs).drop 8)
        else if (c :: cs).take 7 = fencePat2 then some ((c :: cs).drop 7)
        else if (c :: cs).take 3 = fencePat4 then some ((c :: cs).drop 3)
        else none
      else if c = '\n' then
        if cs.take 3 = fencePat4 then some (cs.drop 3) else none
      else none

/-- Left-to-right global replacement of the regex with the empty string:
at each position, remove a match or keep one character.  Fuel bounds the
number of steps; every step consumes at least one character, so the
caller's fuel `l.length` suffices. -/
def stripFencesAux : Nat → List Char → List Char
  | 0, l => l
  | _ + 1, [] => []
  | fuel + 1, c :: cs =>
      match matchFence (c :: cs) with
      | some rest => stripFencesAux fuel rest
      | none => c :: stripFencesAux fuel cs

/-- The server's fence removal:
`responseText.replace(/```json\n?|\n?```/g, '')`. -/
def stripCodeFences (s : String) : String :=
  String.mk (stripFencesAux s.data.length s.data)

/-- The degraded fallback response built in the `catch` branch: the raw
(unstripped) text in `russian`, all other fields `null`. -/
def degradedResponse (responseText : String) : Json :=
  .jobj [("russian", .jstr responseText),
         ("english_feedback", .jnull),
         ("transliteration", .jnull),
         ("topic_alignment", .jnull)]

/-- The server's parse/repair step, for an arbitrary model `p` of the
`JSON.parse` builtin: strip code fences, trim, parse; if parsing fails,
fall back to the degraded response.  The `try`/`catch` of the source makes
this a total function — the parsed value, whatever its shape, is passed
through unvalidated. -/
def parseStepWith (p : String → Option Json) (responseText : String) : Json :=
  match p (strTrim (stripCodeFences responseText)) with
  | some parsed => parsed
  | none => degradedResponse responseText

/-! ## Well-formedness of a TutorResponse (spec §3, Data model)

Modelled from the spec: `TutorResponse` is
`{russian: text, english_feedback: text|null, transliteration: text|null,
topic_alignment: text|null}`.  The source's `TutorResponse` interface is a
compile-time-only TypeScript annotation; this executable predicate is the
spec-side shape used to compare against what the code actually returns. -/

/-- A JSON string. -/
def isStr : Json → Bool
  | .jstr _ => true
  | _ => false

/-- A JSON string or `null`. -/
def isStrOrNull : Json → Bool
  | .jstr _ => true
  | .jnull => true
  | _ => false

/-- The named field exists and satisfies the check. -/
def fieldSatisfies (fields : List (String × Json)) (k : String)
    (ok : Json → Bool) : Bool :=
  match fields.lookup k with
  | some v => ok v
  | none => false

/-- The spec's TutorResponse shape: an object with a string `russian`
field, and `english_feedback`, `transliteration`, `topic_alignment` each a
string or `null`. -/
def isWellFormedTutorResponse : Json → Bool
  | .jobj fields =>
      fieldSatisfies fields "russian" isStr &&
      fieldSatisfies fields "english_feedback" isStrOrNull &&
      fieldSatisfies fields "transliteration" isStrOrNull &&
      fieldSatisfies fields "topic_alignment" isStrOrNull
  | _ => false

/-! ## Server level dispatch (src/unnamed/part_000 lines 57–124,
src/unnamed/part_001 lines 57–174) -/

/-- Which of the three fixed instruction blocks the server selects (the
blocks themselves are long prose prompts; the dispatch is what is
verified). -/
inductive PromptMode where
  | beginnerMode
  | foundationMode
  | higherMode
deriving DecidableEq, Repr

/-- The `if / else if / else` dispatch on `userLevel` shared by both server
function versions: anything that is neither `'beginner'` nor
`'foundation'` falls into the `else` (higher) branch.  `userLevel` is a
plain string at runtime — the handler never validates it.  Returns the
selected block and the `speedRecommendation` string. -/
def selectPromptMode (userLevel : String) : PromptMode × String :=
  if userLevel = "beginner" then (.beginnerMode, "0.75")
  else if userLevel = "foundation" then (.foundationMode, "0.90")
  else (.higherMode, "1.10")

/-! ## Completion of a send (src/src/App.tsx, sendMessage lines 180–206) -/

/-- How the awaited `fetch` finished: an OK response with a JSON body, a
non-success HTTP status (the source throws `Server error: <status>` which
its own `catch` turns into the surfaced error), or a thrown transport
error. -/
inductive SendOutcome where
  | httpOk (data : Json)
  | httpError (status : Nat)
  | transportError (msg : String)

/-- Look up a string field of a JSON object. -/
def jsonLookupStr (data : Json) (k : String) : Option String :=
  match data with
  | .jobj fields =>
      match fields.lookup k with
      | some (.jstr s) => some s
      | _ => none
  | _ => none

/-- JavaScript truthiness of `data.k` for a string-typed field, as used by
`data.russian || data.content || '…'` and `data.english_feedback || null`:
present, a string, and non-empty. -/
def jsTruthyField (data : Json) (k : String) : Option String :=
  match jsonLookupStr data k with
  | some s => if s = "" then none else some s
  | none => none

/-- The continuation of `sendMessage` after the `fetch` resolves.  On
success it appends the assistant message built from the response body; on
a non-OK status or a transport error the `catch` sets the error and no
assistant message is appended; the `finally` clears `loading` in every
case.  The second component records any backend request issued here: the
completion path never issues one (there is no automatic retry). -/
def sendMessageComplete (s : AppState) (outcome : SendOutcome) :
    AppState × Option ChatRequest :=
  match outcome with
  | .httpOk data =>
      let assistantMessage : AppMessage :=
        { role := .assistant
          content :=
            ((jsTruthyField data "russian").orElse fun _ =>
              jsTruthyField data "content").getD "Извините, я не понял."
          feedback := jsTruthyField data "english_feedback"
          transliteration := jsTruthyField data "transliteration"
          topic := jsTruthyField data "topic_alignment" }
      ({ s with messages := s.messages ++ [assistantMessage], loading := false },
       none)
  | .httpError status =>
      ({ s with error := some ("Server error: " ++ toString status),
                loading := false }, none)
  | .transportError msg =>
      ({ s with error := some msg, loading := false }, none)

/-- The outcomes handled by the `catch` branch of `sendMessage`. -/
def SendOutcome.isFailure : SendOutcome → Bool
  | .httpOk _ => false
  | .httpError _ => true
  | .transportError _ => true

/-! ## The auto-send machine (src/src/App.tsx, useEffect lines 69–87)

The effect runs on every change of its `[listening, transcript]`
dependencies.  React first runs the previous effect's cleanup (which
clears the armed timeout, if any), then the body: it latches
`wasListeningRef` while listening, and when a listening→idle transition
with a non-empty transcript is observed it arms a 500 ms timeout whose
callback re-checks the (closure-captured) transcript, calls
`sendMessage()`, and clears the latch.  This is modelled as a step machine
over two event kinds; the second component of a step counts the
`sendMessage()` calls it triggers. -/

/-- The mutable state the effect works with: the `wasListeningRef` latch
and the armed-but-not-fired timeout (carrying its captured transcript). -/
structure AutoSendState where
  wasListening : Bool
  pendingTimer : Option String
deriving DecidableEq, Repr

/-- Events driving the auto-send effect: a re-run of the effect with the
current `listening` and `transcript` values (preceded by the previous
cleanup), or the armed timeout firing. -/
inductive AutoSendEvent where
  | effectRun (listening : Bool) (transcript : String)
  | timerFire
deriving DecidableEq, Repr

/-- One step of the auto-send machine. -/
def autoSendStep (st : AutoSendState) (ev : AutoSendEvent) :
    AutoSendState × Nat :=
  match ev with
  | .effectRun listening transcript =>
      let wasL := st.wasListening || listening
      if !listening && wasL && strTrim transcript != "" then
        ({ wasListening := wasL, pendingTimer := some transcript }, 0)
      else
        ({ wasListening := wasL, pendingTimer := none }, 0)
  | .timerFire =>
      match st.pendingTimer with
      | none => (st, 0)
      | some transcript =>
          if strTrim transcript != "" then
            ({ wasListening := false, pendingTimer := none }, 1)
          else
            ({ st with pendingTimer := none }, 0)

/-- Run the machine over an event trace, counting triggered sends. -/
def runAutoSend (st : AutoSendState) : List AutoSendEvent → AutoSendState × Nat
  | [] => (st, 0)
  | ev :: evs =>
      let (st1, n) := autoSendStep st ev
      let (st2, m) := runAutoSend st1 evs
      (st2, n + m)

/-! ## Helper lemmas -/

theorem strTrim_empty : strTrim "" = "" := rfl

theorem orElse_some_eq {α : Type} {a : Option α} {v : α} (h : a = some v)
    (f : Unit → Option α) : a.orElse f = some v := by
  subst h; rfl

theorem orElse_none_eq {α : Type} {a : Option α} (h : a = none)
    (f : Unit → Option α) : a.orElse f = f () := by
  subst h; rfl

theorem orElse_eq_none_tail {α : Type} {a : Option α} {f : Unit → Option α}
    (h : a.orElse f = none) : f () = none := by
  cases a with
  | none => exact h
  | some v => exact absurd h (by simp [Option.orElse])

/-! ## C7 — the rate table -/

/-- C7: The rate table is exactly the fixed mapping beginner ↦ 0.75,
foundation ↦ 0.90, higher ↦ 1.10, which is strictly increasing, and for
every level `l`, a speak call issued after `setLevel l` creates its
utterance with rate exactly the table's value for `l`. -/
theorem rate_table_correct :
    speechRates .beginner = 0.75 ∧ speechRates .foundation = 0.90 ∧
    speechRates .higher = 1.10 ∧
    speechRates .beginner < speechRates .foundation ∧
    speechRates .foundation < speechRates .higher ∧
    ∀ (l : Level) (voice : Voice) (text : String),
      (speakAtLevel l voice text).rate = speechRates l :=
  ⟨rfl, rfl, rfl, by norm_num [speechRates], by norm_num [speechRates],
   fun _ _ _ => rfl⟩

/-! ## C9 — speak with no selected voice -/

/-- C9: For every text input, calling `speak` when no voice is selected is
a no-op that only reports the condition: the engine state (queue and
speaking flag) is returned unchanged — no utterance is created or
submitted — and the condition is reported as a warning. -/
theorem speak_no_voice_noop :
    ∀ (lang : String) (rate pitch : ℚ) (text : String) (st : SynthState),
      speak none lang rate pitch text st =
        (st, some "No Russian voice selected. Cannot speak.") :=
  fun _ _ _ _ _ => rfl

/-! ## C6 — at most one utterance active -/

/-- C6: At most one synthesis utterance is active at a time: a `speak`
call that starts an utterance first cancels everything in flight (the
resulting engine queue is exactly the one new utterance — last-call-wins,
no queueing), `stop` cancels any in-flight utterance and returns the
speaking state to idle, and both operations preserve the at-most-one-
utterance invariant. -/
theorem single_utterance_invariant :
    ∀ (sv : Option Voice) (lang : String) (rate pitch : ℚ) (text : String)
      (st : SynthState),
      (st.queue.length ≤ 1 →
        (speak sv lang rate pitch text st).1.queue.length ≤ 1 ∧
        (stop st).queue.length ≤ 1) ∧
      (∀ voice, (speak (some voice) lang rate pitch text st).1.queue =
        [mkUtterance text voice lang rate pitch]) ∧
      (stop st).queue = [] ∧ (stop st).speaking = false := by
  intro sv lang rate pitch text st
  refine ⟨fun h => ⟨?_, ?_⟩, fun voice => rfl, rfl, rfl⟩
  · cases sv with
    | none => simpa [speak] using h
    | some voice => simp [speak, synthCancel, synthEnqueue]
  · simp [stop, synthCancel]

/-- Witness for C6 at a concrete engine state and voice. -/
theorem single_utterance_invariant_witness :
    (speak (some { name := "Milena", lang := "ru-RU" }) "ru-RU" 0.75 1.0
        "Привет" { queue := [], speaking := false }).1.queue.length ≤ 1 ∧
    (stop { queue := [], speaking := false }).queue.length ≤ 1 :=
  (single_utterance_invariant (some { name := "Milena", lang := "ru-RU" })
    "ru-RU" 0.75 1.0 "Привет" { queue := [], speaking := false }).1
    (by decide)

/-! ## C10 — unknown levels select the higher block -/

/-- C10: For every request whose `userLevel` is neither `"beginner"` nor
`"foundation"` — including values outside the declared Level type — the
server handler selects the higher-tier instruction block and the speech
rate recommendation `1.10`; the dispatch is total, so unknown levels are
never rejected or reported as an error. -/
theorem unknown_level_maps_to_higher :
    ∀ userLevel : String, userLevel ≠ "beginner" → userLevel ≠ "foundation" →
      selectPromptMode userLevel = (.higherMode, "1.10") := by
  intro s h1 h2
  simp [selectPromptMode, h1, h2]

/-- Witness for C10 at a value outside the declared Level type. -/
theorem unknown_level_maps_to_higher_witness :
    selectPromptMode "expert" = (.higherMode, "1.10") :=
  unknown_level_maps_to_higher "expert" (by decide) (by decide)

/-! ## C1 — the send guard -/

/-- C1 counterexample: `sendMessage` is *not* a no-op when a send is
already in flight.  In a state with `loading = true` and a non-empty
input, the call appends a user message and issues a backend request — the
source's only guard is `if (!input.trim()) return;`. -/
theorem sendMessage_not_single_flight_cex :
    ({ messages := [], input := "Привет", level := .beginner,
       loading := true, error := none } : AppState).loading = true ∧
    (sendMessageStart { messages := [], input := "Привет", level := .beginner,
                        loading := true, error := none }).1.messages.length = 1 ∧
    (sendMessageStart { messages := [], input := "Привет", level := .beginner,
                        loading := true, error := none }).2.isSome = true := by
  decide

/-- C1 amended: `sendMessage` is a no-op when the input text is empty or
whitespace-only; it does not itself check the in-flight flag, but an
accepted call synchronously appends exactly one user message, issues
exactly one backend request built from the prior log plus that message,
clears the input and sets the in-flight flag — so an immediately following
second invocation (no input change in between) appends nothing and issues
no backend request. -/
theorem sendMessage_guard_amended :
    ∀ s : AppState,
      (strTrim s.input = "" → sendMessageStart s = (s, none)) ∧
      (strTrim s.input ≠ "" →
        (sendMessageStart s).1.messages =
          s.messages ++ [{ role := .user, content := strTrim s.input }] ∧
        (sendMessageStart s).2 =
          some { reqMessages := s.messages.map (fun m => (m.role, m.content))
                   ++ [(Role.user, strTrim s.input)],
                 userLevel := s.level } ∧
        (sendMessageStart s).1.input = "" ∧
        (sendMessageStart s).1.loading = true ∧
        sendMessageStart (sendMessageStart s).1 = ((sendMessageStart s).1, none)) := by
  intro s
  constructor
  · intro h
    simp [sendMessageStart, h]
  · intro h
    refine ⟨?_, ?_, ?_, ?_, ?_⟩ <;>
      simp [sendMessageStart, h, strTrim_empty]

/-- Witness for C1 (amended) at a whitespace-only and at a non-empty
input. -/
theorem sendMessage_guard_amended_witness :
    sendMessageStart { messages := [], input := "  ", level := .beginner,
                       loading := false, error := none } =
      ({ messages := [], input := "  ", level := .beginner,
         loading := false, error := none }, none) ∧
    (sendMessageStart { messages := [], input := "Привет", level := .beginner,
                        loading := false, error := none }).1.input = "" := by
  constructor
  · exact (sendMessage_guard_amended _).1 (by decide)
  · exact ((sendMessage_guard_amended
      { messages := [], input := "Привет", level := .beginner,
        loading := false, error := none }).2 (by decide)).2.2.1

/-! ## C8 — send failure handling -/

/-- C8: For every send call that fails (non-success HTTP status or thrown
transport error): no assistant message is appended to the log, the error
condition is surfaced as a single error value, the in-flight flag is
cleared, no request is issued by the completion (no automatic retry), and
a subsequent send with non-blank input is accepted. -/
theorem send_failure_handling :
    ∀ (s : AppState) (outcome : SendOutcome), outcome.isFailure = true →
      (sendMessageComplete s outcome).1.messages = s.messages ∧
      (∃ msg, (sendMessageComplete s outcome).1.error = some msg) ∧
      (sendMessageComplete s outcome).1.loading = false ∧
      (sendMessageComplete s outcome).2 = none ∧
      (∀ t : String, strTrim t ≠ "" →
        (sendMessageStart
          { (sendMessageComplete s outcome).1 with input := t }).2.isSome = true) := by
  intro s outcome h
  cases outcome with
  | httpOk data => exact absurd h (by simp [SendOutcome.isFailure])
  | httpError status =>
      refine ⟨rfl, ⟨_, rfl⟩, rfl, rfl, ?_⟩
      intro t ht
      simp [sendMessageStart, ht]
  | transportError msg =>
      refine ⟨rfl, ⟨_, rfl⟩, rfl, rfl, ?_⟩
      intro t ht
      simp [sendMessageStart, ht]

/-- Witness for C8 at a concrete state and a 500 error. -/
theorem send_failure_handling_witness :
    (sendMessageComplete { messages := [], input := "", level := .beginner,
                           loading := true, error := none }
        (.httpError 500)).1.messages = [] ∧
    (sendMessageComplete { messages := [], input := "", level := .beginner,
                           loading := true, error := none }
        (.httpError 500)).1.loading = false ∧
    (sendMessageComplete { messages := [], input := "", level := .beginner,
                           loading := true, error := none }
        (.httpError 500)).2 = none := by
  have h := send_failure_handling
    { messages := [], input := "", level := .beginner,
      loading := true, error := none } (.httpError 500) (by decide)
  exact ⟨h.1, h.2.2.1, h.2.2.2.1⟩

/-! ## C4 — the auto-send machine -/

theorem autoSendStep_true (st : AutoSendState) (τ : String) :
    autoSendStep st (.effectRun true τ) = ({ wasListening := true, pendingTimer := none }, 0) := by
  simp [autoSendStep]

theorem autoSendStep_false_arm (p : Option String) {τ : String}
    (hτ : strTrim τ ≠ "") :
    autoSendStep ⟨true, p⟩ (.effectRun false τ) = (⟨true, some τ⟩, 0) := by
  simp [autoSendStep, hτ]

theorem autoSendStep_false_noarm (p : Option String) {τ : String}
    (hτ : strTrim τ = "") :
    autoSendStep ⟨true, p⟩ (.effectRun false τ) = (⟨true, none⟩, 0) := by
  simp [autoSendStep, hτ]

theorem autoSendStep_idle_false (p : Option String) (τ : String) :
    autoSendStep ⟨false, p⟩ (.effectRun false τ) = (⟨false, none⟩, 0) := by
  simp [autoSendStep]

theorem autoSendStep_fire {τ : String} (hτ : strTrim τ ≠ "") :
    autoSendStep ⟨true, some τ⟩ .timerFire = (⟨false, none⟩, 1) := by
  simp [autoSendStep, hτ]

theorem runAutoSend_cons (st : AutoSendState) (ev : AutoSendEvent)
    (evs : List AutoSendEvent) :
    runAutoSend st (ev :: evs) =
      ((runAutoSend (autoSendStep st ev).1 evs).1,
       (autoSendStep st ev).2 + (runAutoSend (autoSendStep st ev).1 evs).2) := by
  simp only [runAutoSend]

theorem runAutoSend_append (st : AutoSendState) (l1 l2 : List AutoSendEvent) :
    runAutoSend st (l1 ++ l2) =
      ((runAutoSend (runAutoSend st l1).1 l2).1,
       (runAutoSend st l1).2 + (runAutoSend (runAutoSend st l1).1 l2).2) := by
  induction l1 generalizing st with
  | nil => simp [runAutoSend]
  | cons ev evs ih =>
      simp only [List.cons_append, runAutoSend_cons, ih, Nat.add_assoc]

/-- Any non-empty run of effect re-runs with `listening = true` (a
listening session, however many times its signals fire) leaves the machine
latched with no armed timer and triggers no send. -/
theorem run_true_runs (l : List AutoSendEvent)
    (hl : ∀ ev ∈ l, ∃ σ, ev = .effectRun true σ) (st : AutoSendState)
    (hne : l ≠ []) :
    runAutoSend st l = (⟨true, none⟩, 0) := by
  induction l generalizing st with
  | nil => exact absurd rfl hne
  | cons ev evs ih =>
      obtain ⟨σ, rfl⟩ := hl _ (List.mem_cons_self _ _)
      rw [runAutoSend_cons, autoSendStep_true]
      cases evs with
      | nil => simp [runAutoSend]
      | cons e es =>
          rw [ih (fun x hx => hl x (List.mem_cons_of_mem _ hx)) _ (by simp)]
          rfl

/-- Any run of effect re-runs with `listening = false` from a latched
state keeps the latch and triggers no send. -/
theorem run_false_from_true (l : List AutoSendEvent)
    (hl : ∀ ev ∈ l, ∃ σ, ev = .effectRun false σ) (p : Option String) :
    ∃ q, runAutoSend ⟨true, p⟩ l = (⟨true, q⟩, 0) := by
  induction l generalizing p with
  | nil => exact ⟨p, rfl⟩
  | cons ev evs ih =>
      obtain ⟨σ, rfl⟩ := hl _ (List.mem_cons_self _ _)
      have ih2 := ih (fun x hx => hl x (List.mem_cons_of_mem _ hx))
      by_cases hσ : strTrim σ = ""
      · obtain ⟨q, hq⟩ := ih2 none
        exact ⟨q, by rw [runAutoSend_cons, autoSendStep_false_noarm _ hσ, hq]; rfl⟩
      · obtain ⟨q, hq⟩ := ih2 (some σ)
        exact ⟨q, by rw [runAutoSend_cons, autoSendStep_false_arm _ hσ, hq]; rfl⟩

/-- Any run of effect re-runs with `listening = false` from the unlatched
idle state is inert. -/
theorem run_false_from_idle (l : List AutoSendEvent)
    (hl : ∀ ev ∈ l, ∃ σ, ev = .effectRun false σ) :
    runAutoSend ⟨false, none⟩ l = (⟨false, none⟩, 0) := by
  induction l with
  | nil => rfl
  | cons ev evs ih =>
      obtain ⟨σ, rfl⟩ := hl _ (List.mem_cons_self _ _)
      rw [runAutoSend_cons, autoSendStep_idle_false,
          ih (fun x hx => hl x (List.mem_cons_of_mem _ hx))]
      rfl

/-- C4: For every listen-then-silence cycle whose transcript is non-empty,
auto-send triggers exactly one send when the debounce timer fires, no
matter how many times the listening-changed and transcript-changed signals
re-run the effect before or after (`pre`, `mid`, `post` are arbitrary);
and if a new listening session starts before the timer fires (`rst`), the
armed timer is cancelled (the pending-timer slot is cleared, i.e. the
machine is disarmed) and zero sends are triggered for that cycle. -/
theorem auto_send_exactly_once
    (pre mid post rst : List AutoSendEvent) (τ : String)
    (hpre : pre ≠ []) (hpreT : ∀ ev ∈ pre, ∃ σ, ev = .effectRun true σ)
    (hmid : ∀ ev ∈ mid, ∃ σ, ev = .effectRun false σ)
    (hτ : strTrim τ ≠ "")
    (hpost : ∀ ev ∈ post, ∃ σ, ev = .effectRun false σ)
    (hrst : rst ≠ []) (hrstT : ∀ ev ∈ rst, ∃ σ, ev = .effectRun true σ) :
    (runAutoSend ⟨false, none⟩
      (pre ++ mid ++ [.effectRun false τ] ++ [.timerFire] ++ post)).2 = 1 ∧
    runAutoSend ⟨false, none⟩
      (pre ++ mid ++ [.effectRun false τ] ++ rst) = (⟨true, none⟩, 0) := by
  have h1 : runAutoSend ⟨false, none⟩ pre = (⟨true, none⟩, 0) :=
    run_true_runs pre hpreT _ hpre
  obtain ⟨q, h2⟩ := run_false_from_true mid hmid none
  have h3 : runAutoSend (⟨true, q⟩ : AutoSendState) [.effectRun false τ] =
      (⟨true, some τ⟩, 0) := by
    rw [runAutoSend_cons, autoSendStep_false_arm _ hτ]
    simp [runAutoSend]
  constructor
  · have h4 : runAutoSend (⟨true, some τ⟩ : AutoSendState) [.timerFire] =
        (⟨false, none⟩, 1) := by
      rw [runAutoSend_cons, autoSendStep_fire hτ]
      simp [runAutoSend]
    have h5 : runAutoSend ⟨false, none⟩ post = (⟨false, none⟩, 0) :=
      run_false_from_idle post hpost
    rw [runAutoSend_append, runAutoSend_append, runAutoSend_append,
        runAutoSend_append, h1]
    simp only [h1, h2, h3, h4, h5]
  · have h6 : runAutoSend (⟨true, some τ⟩ : AutoSendState) rst =
        (⟨true, none⟩, 0) :=
      run_true_runs rst hrstT _ hrst
    rw [runAutoSend_append, runAutoSend_append, runAutoSend_append, h1]
    simp only [h1, h2, h3, h6]

/-- Witness for C4: the spec's own scenario — the user says
«Я люблю футбол», recognition stops, the timer fires, the post-send
transcript reset re-runs the effect: exactly one send; and a cycle
interrupted by a new listening session before the timer fires: zero
sends, timer disarmed. -/
theorem auto_send_exactly_once_witness :
    (runAutoSend ⟨false, none⟩
      [.effectRun true "Я люблю", .effectRun false "Я люблю футбол",
       .timerFire, .effectRun false ""]).2 = 1 ∧
    runAutoSend ⟨false, none⟩
      [.effectRun true "Я люблю", .effectRun false "Я люблю футбол",
       .effectRun true ""] = (⟨true, none⟩, 0) := by
  have h := auto_send_exactly_once [.effectRun true "Я люблю"] []
    [.effectRun false ""] [.effectRun true ""] "Я люблю футбол"
    (by simp)
    (by intro ev hev; simp at hev; exact ⟨"Я люблю", hev⟩)
    (by intro ev hev; simp at hev)
    (by decide)
    (by intro ev hev; simp at hev; exact ⟨"", hev⟩)
    (by simp)
    (by intro ev hev; simp at hev; exact ⟨"", hev⟩)
  simpa using h

/-! ## C5 — voice selection -/

theorem findByKey_none_iff {rv : List Voice} {k : String} :
    findByKey rv k = none ↔ anyKey rv k = false := by
  simp [findByKey, anyKey, List.find?_eq_none, List.any_eq_false]

/-- The priority chain evaluates first-match-wins: its result is the find
of the first rule that can match at all (or the head fallback). -/
theorem selectChain_eq_tierChoice (rv : List Voice) :
    selectChain rv = tierChoice rv (winningTier rv) := by
  unfold selectChain winningTier
  by_cases h0 : anyKey rv "google"
  case pos =>
    rcases hf : findByKey rv "google" with _ | v
    · exact absurd (findByKey_none_iff.mp hf) (by simp [h0])
    · rw [if_pos h0, show tierChoice rv 0 = findByKey rv "google" from rfl, hf]
      rfl
  case neg =>
  rw [orElse_none_eq (findByKey_none_iff.mpr (by simpa using h0)) _,
      if_neg h0]
  by_cases h1 : anyKey rv "microsoft"
  case pos =>
    rcases hf : findByKey rv "microsoft" with _ | v
    · exact absurd (findByKey_none_iff.mp hf) (by simp [h1])
    · rw [if_pos h1, show tierChoice rv 1 = findByKey rv "microsoft" from rfl, hf]
      rfl
  case neg =>
  rw [orElse_none_eq (findByKey_none_iff.mpr (by simpa using h1)) _,
      if_neg h1]
  by_cases h2 : anyKey rv "yandex"
  case pos =>
    rcases hf : findByKey rv "yandex" with _ | v
    · exact absurd (findByKey_none_iff.mp hf) (by simp [h2])
    · rw [if_pos h2, show tierChoice rv 2 = findByKey rv "yandex" from rfl, hf]
      rfl
  case neg =>
  rw [orElse_none_eq (findByKey_none_iff.mpr (by simpa using h2)) _,
      if_neg h2]
  by_cases h3 : anyKey rv "irina"
  case pos =>
    rcases hf : findByKey rv "irina" with _ | v
    · exact absurd (findByKey_none_iff.mp hf) (by simp [h3])
    · rw [if_pos h3, show tierChoice rv 3 = findByKey rv "irina" from rfl, hf]
      rfl
  case neg =>
  rw [orElse_none_eq (findByKey_none_iff.mpr (by simpa using h3)) _,
      if_neg h3]
  by_cases h4 : anyKey rv "pavel"
  case pos =>
    rcases hf : findByKey rv "pavel" with _ | v
    · exact absurd (findByKey_none_iff.mp hf) (by simp [h4])
    · rw [if_pos h4, show tierChoice rv 4 = findByKey rv "pavel" from rfl, hf]
      rfl
  case neg =>
  rw [orElse_none_eq (findByKey_none_iff.mpr (by simpa using h4)) _,
      if_neg h4]
  by_cases h5 : anyKey rv "milena"
  case pos =>
    rcases hf : findByKey rv "milena" with _ | v
    · exact absurd (findByKey_none_iff.mp hf) (by simp [h5])
    · rw [if_pos h5, show tierChoice rv 5 = findByKey rv "milena" from rfl, hf]
      rfl
  case neg =>
  rw [orElse_none_eq (findByKey_none_iff.mpr (by simpa using h5)) _,
      if_neg h5]
  by_cases h6 : anyKey rv "yuri"
  case pos =>
    rcases hf : findByKey rv "yuri" with _ | v
    · exact absurd (findByKey_none_iff.mp hf) (by simp [h6])
    · rw [if_pos h6, show tierChoice rv 6 = findByKey rv "yuri" from rfl, hf]
      rfl
  case neg =>
  rw [orElse_none_eq (findByKey_none_iff.mpr (by simpa using h6)) _,
      if_neg h6]
  rfl

theorem anyKey_perm {rv rv' : List Voice} (h : rv.Perm rv') (k : String) :
    anyKey rv k = anyKey rv' k := by
  have hiff : anyKey rv k = true ↔ anyKey rv' k = true := by
    simp [anyKey, List.any_eq_true, h.mem_iff]
  rcases hb : anyKey rv k <;> rcases hb' : anyKey rv' k <;> simp_all

theorem winningTier_perm {rv rv' : List Voice} (h : rv.Perm rv') :
    winningTier rv = winningTier rv' := by
  unfold winningTier
  rw [anyKey_perm h "google", anyKey_perm h "microsoft",
      anyKey_perm h "yandex", anyKey_perm h "irina", anyKey_perm h "pavel",
      anyKey_perm h "milena", anyKey_perm h "yuri"]

theorem selectChain_ne_none {rv : List Voice} (hne : rv ≠ []) :
    selectChain rv ≠ none := by
  intro hn
  unfold selectChain at hn
  have hhead : rv.head? = none :=
    orElse_eq_none_tail (orElse_eq_none_tail (orElse_eq_none_tail
      (orElse_eq_none_tail (orElse_eq_none_tail (orElse_eq_none_tail
        (orElse_eq_none_tail hn))))))
  exact hne (List.head?_eq_none_iff.mp hhead)

/-- C5 counterexample: the selected voice is *not* invariant under
permutation of the candidate list.  Two Russian voices matching no keyword
rule: each ordering selects its own first element. -/
theorem voice_selection_order_dependent_cex :
    ([{ name := "Beta", lang := "ru-RU" }, { name := "Alpha", lang := "ru-RU" }] : List Voice).Perm
      [{ name := "Alpha", lang := "ru-RU" }, { name := "Beta", lang := "ru-RU" }] ∧
    selectPreferredVoice [{ name := "Alpha", lang := "ru-RU" }, { name := "Beta", lang := "ru-RU" }] =
      some { name := "Alpha", lang := "ru-RU" } ∧
    selectPreferredVoice [{ name := "Beta", lang := "ru-RU" }, { name := "Alpha", lang := "ru-RU" }] =
      some { name := "Beta", lang := "ru-RU" } :=
  ⟨List.Perm.swap _ _ _, rfl, rfl⟩

/-- C5 amended: selection is a total, deterministic function of the
candidate list, evaluating the priority rules first-match-wins (google,
microsoft, yandex, then the named voices, then fallback to the first
voice).  *Which* rule wins is the same for every permutation of the
candidates; the selected voice is the first list element matching the
winning rule, so it may differ between orderings when several voices match
that rule. -/
theorem voice_selection_amended (rv rv' : List Voice) (hperm : rv.Perm rv')
    (hne : rv ≠ []) :
    winningTier rv = winningTier rv' ∧
    selectPreferredVoice rv = tierChoice rv (winningTier rv) ∧
    ∃ v, selectPreferredVoice rv = some v := by
  have hlen : rv.length > 0 := List.length_pos.mpr hne
  have hsel : selectPreferredVoice rv = selectChain rv := by
    simp [selectPreferredVoice, hlen]
  refine ⟨winningTier_perm hperm, ?_, ?_⟩
  · rw [hsel, selectChain_eq_tierChoice]
  · rcases hc : selectChain rv with _ | v
    · exact absurd hc (selectChain_ne_none hne)
    · exact ⟨v, by rw [hsel, hc]⟩

/-- Witness for C5 (amended): two orderings of the same two voices, one of
which matches the google rule. -/
theorem voice_selection_amended_witness :
    winningTier [{ name := "Milena", lang := "ru-RU" }, { name := "Google Russian", lang := "ru-RU" }] =
      winningTier [{ name := "Google Russian", lang := "ru-RU" }, { name := "Milena", lang := "ru-RU" }] ∧
    selectPreferredVoice [{ name := "Milena", lang := "ru-RU" }, { name := "Google Russian", lang := "ru-RU" }] =
      tierChoice [{ name := "Milena", lang := "ru-RU" }, { name := "Google Russian", lang := "ru-RU" }]
        (winningTier [{ name := "Milena", lang := "ru-RU" }, { name := "Google Russian", lang := "ru-RU" }]) ∧
    ∃ v, selectPreferredVoice [{ name := "Milena", lang := "ru-RU" }, { name := "Google Russian", lang := "ru-RU" }] =
      some v :=
  voice_selection_amended _ _ (List.Perm.swap _ _ _) (by decide)

/-! ## C3 / C2 — the server's fence stripping and parse/repair step -/

theorem stripFencesAux_nil (fuel : Nat) : stripFencesAux fuel [] = [] := by
  cases fuel <;> rfl

theorem stripFencesAux_pat1 (fuel : Nat) (rest : List Char) :
    stripFencesAux (fuel + 1) (fencePat1 ++ rest) = stripFencesAux fuel rest :=
  rfl

theorem containsSub_false_head {pat : List Char} {c : Char} {cs : List Char}
    (h : containsSub pat (c :: cs) = false) :
    startsWithL (c :: cs) pat = false ∧ containsSub pat cs = false := by
  simp only [containsSub, Bool.or_eq_false_iff] at h
  exact h

theorem matchFence_none_of {c : Char} {cs : List Char}
    (h3 : (c :: cs).take 3 ≠ fencePat4)
    (hn : c = '\n' → cs.take 3 ≠ fencePat4) :
    matchFence (c :: cs) = none := by
  simp only [matchFence]
  by_cases hc : c = backtickChar
  · have h8 : (c :: cs).take 8 ≠ fencePat1 := by
      intro h
      apply h3
      have e : (c :: cs).take 3 = ((c :: cs).take 8).take 3 := by
        rw [List.take_take]
        norm_num
      rw [e, h]
      rfl
    have h7 : (c :: cs).take 7 ≠ fencePat2 := by
      intro h
      apply h3
      have e : (c :: cs).take 3 = ((c :: cs).take 7).take 3 := by
        rw [List.take_take]
        norm_num
      rw [e, h]
      rfl
    rw [if_pos hc, if_neg h8, if_neg h7, if_neg h3]
  · rw [if_neg hc]
    by_cases h : c = '\n'
    · rw [if_pos h, if_neg (hn h)]
    · rw [if_neg h]

/-- Scanning a text containing no triple-backtick run, followed by the
closing `\n` + fence, removes exactly that closing fence.  (An isolated
backtick or a pair of backticks in the text cannot start a regex match:
every alternative of the regex needs three consecutive backticks.) -/
theorem stripFencesAux_suffix (l : List Char)
    (hl : containsSub fencePat4 l = false) :
    ∀ fuel : Nat, l.length + 1 ≤ fuel →
      stripFencesAux fuel (l ++ fencePat3) = l := by
  induction l with
  | nil =>
      intro fuel hf
      obtain ⟨f, rfl⟩ : ∃ f, fuel = f + 1 := ⟨fuel - 1, by omega⟩
      have h1 : stripFencesAux (f + 1) ([] ++ fencePat3) = stripFencesAux f [] := by
        rw [List.nil_append]
        rfl
      rw [h1, stripFencesAux_nil]
  | cons c cs ih =>
      intro fuel hf
      obtain ⟨f, rfl⟩ : ∃ f, fuel = f + 1 := ⟨fuel - 1, by omega⟩
      obtain ⟨hsw, htail⟩ := containsSub_false_head hl
      have hpat4 : fencePat4 = backtickChar :: backtickChar :: backtickChar :: [] :=
        rfl
      have h3 : (c :: (cs ++ fencePat3)).take 3 ≠ fencePat4 := by
        rcases cs with _ | ⟨d, _ | ⟨e, t⟩⟩
        · intro h
          rw [show (c :: (([] : List Char) ++ fencePat3)).take 3 =
                c :: '\n' :: backtickChar :: [] from rfl, hpat4] at h
          injection h with _ h'
          injection h' with h2 _
          exact absurd h2 (by decide)
        · intro h
          rw [show (c :: (([d] : List Char) ++ fencePat3)).take 3 =
                c :: d :: '\n' :: [] from rfl, hpat4] at h
          injection h with _ h'
          injection h' with _ h''
          injection h'' with h3x _
          exact absurd h3x (by decide)
        · intro h
          rw [show (c :: ((d :: e :: t) ++ fencePat3)).take 3 =
                c :: d :: e :: [] from rfl, hpat4] at h
          injection h with h1 h'
          injection h' with h2 h''
          injection h'' with h3x _
          subst h1
          subst h2
          subst h3x
          rw [hpat4] at hsw
          simp [startsWithL] at hsw
      have hn : c = '\n' → (cs ++ fencePat3).take 3 ≠ fencePat4 := by
        intro _
        rcases cs with _ | ⟨d, _ | ⟨e, _ | ⟨g, t⟩⟩⟩
        · intro h
          rw [show (([] : List Char) ++ fencePat3).take 3 =
                '\n' :: backtickChar :: backtickChar :: [] from rfl, hpat4] at h
          injection h with h1 _
          exact absurd h1 (by decide)
        · intro h
          rw [show (([d] : List Char) ++ fencePat3).take 3 =
                d :: '\n' :: backtickChar :: [] from rfl, hpat4] at h
          injection h with _ h'
          injection h' with h2 _
          exact absurd h2 (by decide)
        · intro h
          rw [show (([d, e] : List Char) ++ fencePat3).take 3 =
                d :: e :: '\n' :: [] from rfl, hpat4] at h
          injection h with _ h'
          injection h' with _ h''
          injection h'' with h3x _
          exact absurd h3x (by decide)
        · intro h
          rw [show ((d :: e :: g :: t) ++ fencePat3).take 3 =
                d :: e :: g :: [] from rfl, hpat4] at h
          injection h with h1 h'
          injection h' with h2 h''
          injection h'' with h3x _
          subst h1
          subst h2
          subst h3x
          obtain ⟨hsw2, _⟩ := containsSub_false_head htail
          rw [hpat4] at hsw2
          simp [startsWithL] at hsw2
      have hm : matchFence (c :: (cs ++ fencePat3)) = none :=
        matchFence_none_of h3 hn
      have hstep : stripFencesAux (f + 1) ((c :: cs) ++ fencePat3) =
          c :: stripFencesAux f (cs ++ fencePat3) := by
        rw [List.cons_append]
        simp only [stripFencesAux, hm]
      rw [hstep, ih htail f (by simp only [List.length_cons] at hf; omega)]

/-- Stripping the fences of a fence-wrapped text that contains no
triple-backtick run yields exactly the wrapped text. -/
theorem stripCodeFences_wrapped (j : String)
    (hj : containsSub fencePat4 j.data = false) :
    stripCodeFences ("```json\n" ++ j ++ "\n```") = j := by
  show String.mk (stripFencesAux ("```json\n" ++ j ++ "\n```").data.length
      ("```json\n" ++ j ++ "\n```").data) = j
  rw [show ("```json\n" ++ j ++ "\n```").data =
      (fencePat1 ++ j.data) ++ fencePat3 from rfl]
  have hlen : ((fencePat1 ++ j.data) ++ fencePat3).length =
      (j.data.length + 11) + 1 := by
    simp only [List.length_append, fencePat1, fencePat3, List.length_cons,
      List.length_nil]
    omega
  rw [hlen, List.append_assoc, stripFencesAux_pat1,
      stripFencesAux_suffix j.data hj (j.data.length + 11) (by omega)]

/-- C3 counterexample: the fence-wrapped clause of the claim is false when
the embedded JSON itself contains a triple-backtick run.  The payload
`{"russian": "x```y"}` is valid JSON (it parses to the embedded object),
but the regex strips the ``` inside the JSON string literal as well, so
the handler's parse step yields `{"russian": "xy"}` — a different object
than the embedded one. -/
theorem tutor_parse_fence_mangling_cex :
    jsonParse (strTrim "\x7b\"russian\": \"x```y\"\x7d") =
      some (.jobj [("russian", .jstr "x```y")]) ∧
    stripCodeFences ("```json\n" ++ "\x7b\"russian\": \"x```y\"\x7d" ++ "\n```") =
      "\x7b\"russian\": \"xy\"\x7d" ∧
    parseStepWith jsonParse
        ("```json\n" ++ "\x7b\"russian\": \"x```y\"\x7d" ++ "\n```") =
      .jobj [("russian", .jstr "xy")] ∧
    (Json.jobj [("russian", .jstr "xy")]) ≠ .jobj [("russian", .jstr "x```y")] :=
  ⟨rfl, rfl, rfl, by simp⟩

/-- C3 amended: For every model `p` of the `JSON.parse` builtin and every
backend text output: a text wrapped in markdown code fences whose payload
contains no triple-backtick run parses to exactly the embedded JSON value
(the stripping regex deletes ``` sequences anywhere, including inside JSON
string literals, so wrapped payloads containing one are mangled — see the
counterexample); if the fence-stripped, trimmed text fails to parse, the
result is the degraded response (the raw text in `russian`, all other
fields null); and in every case the step returns either the parsed value
or the degraded response — it never raises an error to the caller. -/
theorem tutor_parse_fallback :
    ∀ p : String → Option Json,
      (∀ (j : String) (v : Json), containsSub fencePat4 j.data = false →
        p (strTrim j) = some v →
        parseStepWith p ("```json\n" ++ j ++ "\n```") = v) ∧
      (∀ t : String, p (strTrim (stripCodeFences t)) = none →
        parseStepWith p t = degradedResponse t) ∧
      (∀ t : String,
        (∃ v, p (strTrim (stripCodeFences t)) = some v ∧
          parseStepWith p t = v) ∨
        parseStepWith p t = degradedResponse t) := by
  intro p
  refine ⟨?_, ?_, ?_⟩
  · intro j v hj hp
    unfold parseStepWith
    rw [stripCodeFences_wrapped j hj, hp]
  · intro t hp
    unfold parseStepWith
    rw [hp]
  · intro t
    rcases hp : p (strTrim (stripCodeFences t)) with _ | v
    · right
      simp [parseStepWith, hp]
    · left
      exact ⟨v, rfl, by simp [parseStepWith, hp]⟩

/-- Witness for C3 (amended): a fence-wrapped JSON object whose payload
has isolated backticks but no triple-backtick run (evaluated with the
`jsonParse` model), and a non-JSON text hitting the degraded fallback. -/
theorem tutor_parse_fallback_witness :
    parseStepWith jsonParse "```json\n\x7b\"russian\": \"a`b``c\"\x7d\n```" =
      .jobj [("russian", .jstr "a`b``c")] ∧
    parseStepWith jsonParse "Привет" = degradedResponse "Привет" := by
  constructor
  · exact (tutor_parse_fallback jsonParse).1 "\x7b\"russian\": \"a`b``c\"\x7d"
      (.jobj [("russian", .jstr "a`b``c")]) (by decide) rfl
  · exact (tutor_parse_fallback jsonParse).2.1 "Привет" rfl

/-- C2 counterexample: a backend output that parses as JSON but is not an
object of the TutorResponse shape is passed through unrepaired.  The text
`"42"` parses (so the fallback is not taken), and the handler's value
after the parse/repair step is the number 42 — not a well-formed
TutorResponse. -/
theorem parse_passthrough_not_wellformed_cex :
    jsonParse (strTrim (stripCodeFences "42")) = some (.jnum 42) ∧
    parseStepWith jsonParse "42" = .jnum 42 ∧
    isWellFormedTutorResponse (parseStepWith jsonParse "42") = false :=
  ⟨rfl, rfl, rfl⟩

/-- C2 amended: the server handler produces exactly one value per backend
call (the parse/repair step is a total function), and that value is a
well-formed TutorResponse whenever the fence-stripped text fails to parse
as JSON (the degraded fallback); but when the text parses, the parsed
value is returned as-is without shape validation, so backend output that
parses as JSON of the wrong shape is passed through. -/
theorem tutor_response_repair_amended :
    ∀ (p : String → Option Json) (t : String),
      (p (strTrim (stripCodeFences t)) = none →
        isWellFormedTutorResponse (parseStepWith p t) = true) ∧
      (∀ v, p (strTrim (stripCodeFences t)) = some v →
        parseStepWith p t = v) := by
  intro p t
  constructor
  · intro hp
    unfold parseStepWith
    rw [hp]
    rfl
  · intro v hp
    unfold parseStepWith
    rw [hp]

/-- Witness for C2 (amended): the degraded fallback on non-JSON text is
well-formed; a parsed non-object value is passed through. -/
theorem tutor_response_repair_amended_witness :
    isWellFormedTutorResponse (parseStepWith jsonParse "Извините") = true ∧
    parseStepWith jsonParse "null" = .jnull := by
  constructor
  · exact (tutor_response_repair_amended jsonParse "Извините").1 rfl
  · exact (tutor_response_repair_amended jsonParse "null").2 .jnull rfl

end GcseRussianTutor
